import Mathlib

/-!
Verification of the Shortme reframe/transcode core against its specification.

The definitions below are shallow embeddings of the TypeScript source:

- `src/services/reframeService.ts` : keyframe interpolation
  (`getInterpolatedReframe`), the phase-1 visual echo scan, the adaptive
  recursive anchor scan (`processSegment`) and the phase-3 trajectory solver.
- `src/services/render/worker.ts` (two variants) and the worker embedded as a
  string in the repository (`RENDER_WORKER_CODE`) : chunk selection, bitrate
  computation, keyframe forcing and the message protocol.
- the MP4 muxer (standalone module and embedded variant).

Real-number arithmetic of the source is modelled with `ℚ`; microsecond
timestamps with `ℤ`.  Division on `ℚ` is total with `x / 0 = 0`; the source
only divides by the quantities shown non-zero in the proofs below.
-/

namespace Shortme

/-- One camera keyframe, mirroring `ReframeDataPoint` from `src/types.ts`
(`timestamp`, `centerX`, `centerY`, optional `scale`). -/
structure ReframeKeyframe where
  timestamp : ℚ
  centerX : ℚ
  centerY : ℚ
  scale : Option ℚ
deriving Repr, DecidableEq

instance : Inhabited ReframeKeyframe := ⟨⟨0, 0, 0, none⟩⟩

/-- Result record of `getInterpolatedReframe` (the object `{x, y, scale}`). -/
structure InterpResult where
  x : ℚ
  y : ℚ
  scale : ℚ
deriving Repr, DecidableEq

/-- The JavaScript coercion `s || 1` applied to an optional scale field:
a missing scale or a scale equal to `0` becomes `1`. -/
def scaleOr (s : Option ℚ) : ℚ :=
  match s with
  | none => 1
  | some v => if v = 0 then 1 else v

/-- The binary-search loop of `getInterpolatedReframe`
(`reframeService.ts` lines 483-491): while `low ≤ high`, probe
`mid = (low + high) >>> 1`; on `keyframes[mid].timestamp ≤ time` record
`idx := mid` and move `low` up, otherwise move `high` down.  The loop is
modelled with a fuel argument; the caller passes more fuel than the loop
can consume (the width `high + 1 - low` strictly decreases each step). -/
def bsearchGo (kf : List ReframeKeyframe) (time : ℚ) :
    ℕ → ℤ → ℤ → ℤ → ℤ
  | 0, _, _, idx => idx
  | fuel + 1, low, high, idx =>
    if low ≤ high then
      let mid := (low + high) / 2
      if (kf.getD mid.toNat default).timestamp ≤ time then
        bsearchGo kf time fuel (mid + 1) high mid
      else
        bsearchGo kf time fuel low (mid - 1) idx
    else idx

/-- `getInterpolatedReframe(keyframes, time)` from `reframeService.ts`
lines 477-507: binary search for the last keyframe with `timestamp ≤ time`,
then linear interpolation towards the next keyframe with the interpolation
parameter clamped to `[0, 1]`; when the bracketing timestamps are within
`0.0001` the first keyframe is returned directly. -/
def getInterpolatedReframe (kf : List ReframeKeyframe) (time : ℚ) :
    InterpResult :=
  if kf.length = 0 then ⟨1/2, 1/2, 1⟩
  else
    let idx := bsearchGo kf time (kf.length + 1) 0 ((kf.length : ℤ) - 1) 0
    let k1 := kf.getD idx.toNat default
    let k2 := (kf.get? (idx.toNat + 1)).getD k1
    let dt := k2.timestamp - k1.timestamp
    if dt ≤ 1/10000 then ⟨k1.centerX, k1.centerY, scaleOr k1.scale⟩
    else
      let t := (time - k1.timestamp) / dt
      let c := max 0 (min 1 t)
      ⟨k1.centerX + (k2.centerX - k1.centerX) * c,
       k1.centerY + (k2.centerY - k1.centerY) * c,
       scaleOr k1.scale + (scaleOr k2.scale - scaleOr k1.scale) * c⟩

/-- Strictly increasing timestamps, the invariant the spec states for
trajectory keyframe sequences. -/
def StrictlySorted (kf : List ReframeKeyframe) : Prop :=
  List.Pairwise (fun a b => a.timestamp < b.timestamp) kf

instance (kf : List ReframeKeyframe) : Decidable (StrictlySorted kf) := by
  unfold StrictlySorted; infer_instance

lemma strictlySorted_ts_le_iff {kf : List ReframeKeyframe}
    (hs : StrictlySorted kf) {j k : ℕ} (hj : j < kf.length)
    (hk : k < kf.length) :
    ((kf.get ⟨j, hj⟩).timestamp ≤ (kf.get ⟨k, hk⟩).timestamp) ↔ j ≤ k := by
  have hmono : ∀ {a b : ℕ} (ha : a < kf.length) (hb : b < kf.length),
      a < b → (kf.get ⟨a, ha⟩).timestamp < (kf.get ⟨b, hb⟩).timestamp := by
    intro a b ha hb hab
    exact List.pairwise_iff_get.mp hs ⟨a, ha⟩ ⟨b, hb⟩ hab
  constructor
  · intro hle
    by_contra hnot
    push_neg at hnot
    exact absurd (hmono hk hj hnot) (not_lt.mpr hle)
  · intro hle
    rcases Nat.lt_or_ge j k with h | h
    · exact le_of_lt (hmono hj hk h)
    · have : j = k := le_antisymm hle h
      subst this; rfl

lemma bsearchGo_exact (kf : List ReframeKeyframe)
    (hs : StrictlySorted kf) (i : ℕ) (hi : i < kf.length) :
    ∀ fuel : ℕ, ∀ low high idx : ℤ,
      (high + 1 - low).toNat < fuel →
      0 ≤ low → high < (kf.length : ℤ) →
      (i : ℤ) ≤ high → ((i : ℤ) < low → idx = (i : ℤ)) →
      bsearchGo kf (kf.get ⟨i, hi⟩).timestamp fuel low high idx = (i : ℤ) := by
  intro fuel
  induction fuel with
  | zero => intro low high idx hw _ _ hih _; omega
  | succ f ih =>
    intro low high idx hw hlow hhigh hih hidx
    rw [bsearchGo]
    by_cases hlh : low ≤ high
    · simp only [hlh, if_true]
      set mid := (low + high) / 2 with hmid
      have hmid_lb : low ≤ mid := by omega
      have hmid_ub : mid ≤ high := by omega
      have hmid0 : 0 ≤ mid := le_trans hlow hmid_lb
      have hmidlen : mid.toNat < kf.length := by omega
      have hget : kf.getD mid.toNat default = kf.get ⟨mid.toNat, hmidlen⟩ := by
        simp [List.getD_eq_getElem?_getD, List.getElem?_eq_getElem hmidlen]
      by_cases hcmp : mid.toNat ≤ i
      · have hts : (kf.getD mid.toNat default).timestamp ≤
            (kf.get ⟨i, hi⟩).timestamp := by
          rw [hget]
          exact (strictlySorted_ts_le_iff hs hmidlen hi).mpr hcmp
        simp only [hts, if_true]
        exact ih (mid + 1) high mid (by omega) (by omega) hhigh hih
          (by intro h; omega)
      · have hts : ¬ (kf.getD mid.toNat default).timestamp ≤
            (kf.get ⟨i, hi⟩).timestamp := by
          rw [hget]
          intro hle
          exact hcmp ((strictlySorted_ts_le_iff hs hmidlen hi).mp hle)
        simp only [hts, if_false]
        exact ih low (mid - 1) idx (by omega) hlow (by omega) (by omega) hidx
    · simp only [hlh, if_false]
      have : (i : ℤ) < low := by omega
      exact hidx this

/-- C1 (amended).  For a non-empty keyframe list with strictly increasing
timestamps, querying `getInterpolatedReframe` at the exact timestamp of
keyframe `i` returns that keyframe: `center_x` and `center_y` unmodified,
and its scale passed through the `scale || 1` coercion of the source (a
missing or zero scale is returned as `1`; any other scale is returned
unmodified). -/
theorem interp_at_exact_keyframe (kf : List ReframeKeyframe)
    (hs : StrictlySorted kf) (i : ℕ) (hi : i < kf.length) :
    getInterpolatedReframe kf (kf.get ⟨i, hi⟩).timestamp =
      ⟨(kf.get ⟨i, hi⟩).centerX, (kf.get ⟨i, hi⟩).centerY,
        scaleOr (kf.get ⟨i, hi⟩).scale⟩ := by
  have hlen : kf.length ≠ 0 := by omega
  unfold getInterpolatedReframe
  simp only [hlen, if_false]
  have hidx : bsearchGo kf (kf.get ⟨i, hi⟩).timestamp (kf.length + 1) 0
      ((kf.length : ℤ) - 1) 0 = (i : ℤ) := by
    apply bsearchGo_exact kf hs i hi
    · omega
    · omega
    · omega
    · omega
    · omega
  rw [hidx]
  have htonat : ((i : ℤ)).toNat = i := Int.toNat_natCast i
  have hk1 : kf.getD ((i : ℤ)).toNat default = kf.get ⟨i, hi⟩ := by
    rw [htonat]
    simp [List.getD_eq_getElem?_getD, List.getElem?_eq_getElem hi]
  rw [htonat] at hk1 ⊢
  rw [hk1]
  rcases h2 : kf.get? (i + 1) with _ | k2
  · simp only [Option.getD_none]
    have : (kf.get ⟨i, hi⟩).timestamp - (kf.get ⟨i, hi⟩).timestamp ≤
        1/10000 := by simp
    simp [this]
  · simp only [Option.getD_some]
    by_cases hdt : k2.timestamp - (kf.get ⟨i, hi⟩).timestamp ≤ 1/10000
    · simp [hdt]
    · simp only [hdt, if_false]
      have hzero : ((kf.get ⟨i, hi⟩).timestamp -
          (kf.get ⟨i, hi⟩).timestamp) /
          (k2.timestamp - (kf.get ⟨i, hi⟩).timestamp) = 0 := by
        simp
      rw [hzero]
      have hc : max (0 : ℚ) (min 1 0) = 0 := by norm_num
      rw [hc]
      simp

/-- Concrete keyframe with scale `0`, used to refute the literal reading of
claim C1. -/
def zeroScaleKf : ReframeKeyframe := ⟨0, 3/10, 2/5, some 0⟩

/-- C1 counterexample.  The claim says `sample(keyframes, t)` at an exact
keyframe timestamp returns the keyframe scale unmodified; on the keyframe
`{timestamp: 0, centerX: 0.3, centerY: 0.4, scale: 0}` the source evaluates
`k1.scale || 1` and returns scale `1`, not the stored `0`. -/
theorem interp_scale_counterexample :
    (getInterpolatedReframe [zeroScaleKf] 0).scale = 1 ∧
    zeroScaleKf.scale = some 0 ∧ (1 : ℚ) ≠ 0 := by
  refine ⟨?_, rfl, by norm_num⟩
  norm_num [getInterpolatedReframe, bsearchGo, zeroScaleKf, scaleOr]

/-- C1 witness.  Applies `interp_at_exact_keyframe` to the concrete
two-keyframe list `[{t=0, cx=1/4, cy=1/2, scale=2}, {t=1, cx=3/4, cy=1/2,
scale=2}]` at the timestamp of keyframe 0. -/
theorem interp_at_exact_keyframe_witness :
    getInterpolatedReframe
        [⟨0, 1/4, 1/2, some 2⟩, ⟨1, 3/4, 1/2, some 2⟩]
        ((([⟨0, 1/4, 1/2, some 2⟩, ⟨1, 3/4, 1/2, some 2⟩] :
          List ReframeKeyframe).get ⟨0, by decide⟩).timestamp) =
      ⟨1/4, 1/2, 2⟩ := by
  have h := interp_at_exact_keyframe
    [⟨0, 1/4, 1/2, some 2⟩, ⟨1, 3/4, 1/2, some 2⟩]
    (by norm_num [StrictlySorted]) 0 (by norm_num)
  rw [h]
  norm_num [scaleOr]

/-! ## Trajectory solver (phase 3 of `analyzeVideoForReframe`) -/

/-- The `mood` field of `ReframeConfig` in `reframeService.ts`. -/
inductive Mood | cinematic | cut | smart
deriving Repr, DecidableEq

/-- The `cameraSpeed` field of `ReframeConfig`. -/
inductive CameraSpeed | slow | normal | fast
deriving Repr, DecidableEq

/-- The `scanMode` field of `ReframeConfig`. -/
inductive ScanMode | faster | normal | perfect
deriving Repr, DecidableEq

/-- `ReframeConfig` from `reframeService.ts` (the `framingTightness` field is
never read by the analyzed code and is omitted). -/
structure ReframeConfig where
  mood : Mood
  cameraSpeed : CameraSpeed
  scanMode : ScanMode
deriving Repr, DecidableEq

/-- A raw face detection (`RawDetection` in `reframeService.ts`). -/
structure RawDetection where
  timestamp : ℚ
  centerX : ℚ
  centerY : ℚ
  width : ℚ
  height : ℚ
  score : ℚ
  isSpeaking : Bool
deriving Repr, DecidableEq

instance : Inhabited RawDetection := ⟨⟨0, 0, 0, 0, 0, 0, false⟩⟩

/-- `DEFAULT_OFFSET_Y = -0.05`, the fixed vertical framing bias. -/
def DEFAULT_OFFSET_Y : ℚ := -(5/100)

/-- The spring stiffness `k` selected from `cameraSpeed`
(`normal: 5`, `fast: 10`, `slow: 2`). -/
def stiffness : CameraSpeed → ℚ
  | .fast => 10
  | .slow => 2
  | .normal => 5

/-- The spring damping `d` selected from `cameraSpeed`
(`normal: 3`, `fast: 2`, `slow: 4`). -/
def damping : CameraSpeed → ℚ
  | .fast => 2
  | .slow => 4
  | .normal => 3

/-- `SIM_STEP = 1/30`, the fixed simulation step. -/
def SIM_STEP : ℚ := 1/30

/-- The anchor-index advance loop at the top of each simulation step:
`while (idx < anchors.length - 1 && anchors[idx+1].timestamp < t) idx++`.
Fuelled with `anchors.length`, which the loop can never exceed. -/
def advanceIdx (anchors : List RawDetection) (t : ℚ) : ℕ → ℕ → ℕ
  | 0, idx => idx
  | f + 1, idx =>
    if idx + 1 < anchors.length ∧ (anchors.getD (idx + 1) default).timestamp < t
    then advanceIdx anchors t f (idx + 1)
    else idx

/-- The per-step target computation of the phase-3 loop:
`rawTarget` and the `isCut` flag, by mood.  When there is no next anchor
(`anchors[idx+1]` undefined) the target is the current anchor center and
no cut occurs. -/
def targetAndCut (mood : Mood) (anchors : List RawDetection) (idx : ℕ)
    (t : ℚ) : ℚ × Bool :=
  let currA := anchors.getD idx default
  match anchors.get? (idx + 1) with
  | none => (currA.centerX, false)
  | some nextA =>
    let range := nextA.timestamp - currA.timestamp
    let dist := |nextA.centerX - currA.centerX|
    match mood with
    | .cut =>
      (if currA.timestamp + range / 2 ≤ t then nextA.centerX else currA.centerX,
       decide (1/10 < dist))
    | .smart =>
      if 1/5 < dist then
        (if currA.timestamp + range / 2 ≤ t then nextA.centerX
         else currA.centerX, true)
      else
        (currA.centerX + (nextA.centerX - currA.centerX) *
          ((t - currA.timestamp) / range), false)
    | .cinematic =>
      (currA.centerX + (nextA.centerX - currA.centerX) *
        ((t - currA.timestamp) / range), false)

/-- Mutable state of the phase-3 simulation loop
(`camPos`, `camVel`, `currentAnchorIdx`). -/
structure SimState where
  camPos : ℚ
  camVel : ℚ
  idx : ℕ
deriving Repr, DecidableEq

/-- One iteration body of the phase-3 loop at simulation time `t`: advance
the anchor index, compute the target, then either snap (`camPos = target,
camVel = 0` on a cut under the `cut`/`smart` moods) or integrate the spring
(`force = (target - pos)·k - vel·d; vel += force·SIM_STEP;
pos += vel·SIM_STEP`), and clamp the position to `[0, 1]`. -/
def simPhysicsStep (cfg : ReframeConfig) (anchors : List RawDetection)
    (t : ℚ) (s : SimState) : SimState :=
  let idx := advanceIdx anchors t anchors.length s.idx
  let tc := targetAndCut cfg.mood anchors idx t
  let pv :=
    if tc.2 ∧ (cfg.mood = .cut ∨ cfg.mood = .smart) then (tc.1, (0 : ℚ))
    else
      let force := (tc.1 - s.camPos) * stiffness cfg.cameraSpeed -
        s.camVel * damping cfg.cameraSpeed
      let vel := s.camVel + force * SIM_STEP
      (s.camPos + vel * SIM_STEP, vel)
  ⟨max 0 (min 1 pv.1), pv.2, idx⟩

/-- The phase-3 loop `for (let t = 0; t <= duration; t += SIM_STEP)`,
unrolled over a known iteration count: `remaining` iterations starting at
step number `stepIdx` (simulation time `stepIdx · SIM_STEP`).  Each
iteration pushes one keyframe `{timestamp: t, centerX: clamped position,
centerY: 0.5 + DEFAULT_OFFSET_Y, scale: 1}`. -/
def simFrom (cfg : ReframeConfig) (anchors : List RawDetection) :
    ℕ → ℕ → SimState → List ReframeKeyframe
  | 0, _, _ => []
  | r + 1, stepIdx, s =>
    let t : ℚ := (stepIdx : ℚ) * SIM_STEP
    let s2 := simPhysicsStep cfg anchors t s
    ⟨t, s2.camPos, 1/2 + DEFAULT_OFFSET_Y, some 1⟩ ::
      simFrom cfg anchors r (stepIdx + 1) s2

/-- Number of iterations of the phase-3 loop: `t = n·(1/30)` runs while
`t ≤ duration`, i.e. for `n = 0, …, ⌊duration·30⌋`. -/
def simSteps (duration : ℚ) : ℕ := (⌊duration * 30⌋ + 1).toNat

/-- Phase 3 of `analyzeVideoForReframe` (`reframeService.ts` lines
392-464): with zero anchors emit exactly the two default keyframes at `0`
and `duration`; otherwise run the spring simulation from the first anchor
center. -/
def solveTrajectory (cfg : ReframeConfig) (anchors : List RawDetection)
    (duration : ℚ) : List ReframeKeyframe :=
  match anchors with
  | [] =>
    [⟨0, 1/2, 1/2 + DEFAULT_OFFSET_Y, some 1⟩,
     ⟨duration, 1/2, 1/2 + DEFAULT_OFFSET_Y, some 1⟩]
  | a0 :: _ => simFrom cfg anchors (simSteps duration) 0 ⟨a0.centerX, 0, 0⟩

/-- C2.  With zero anchor points the trajectory solver emits exactly two
keyframes, at `t = 0` and `t = duration`, both with center
`(0.5, 0.45) = (0.5, 0.5 + DEFAULT_OFFSET_Y)` and scale `1`. -/
theorem solver_zero_anchors (cfg : ReframeConfig) (duration : ℚ) :
    solveTrajectory cfg [] duration =
      [⟨0, 1/2, 9/20, some 1⟩, ⟨duration, 1/2, 9/20, some 1⟩] := by
  norm_num [solveTrajectory, DEFAULT_OFFSET_Y]

lemma simFrom_map_timestamp (cfg : ReframeConfig)
    (anchors : List RawDetection) :
    ∀ r s0 st, (simFrom cfg anchors r s0 st).map (·.timestamp) =
      (List.range r).map (fun j => ((s0 + j : ℕ) : ℚ) * SIM_STEP) := by
  intro r
  induction r with
  | zero => intro s0 st; simp [simFrom]
  | succ n ih =>
    intro s0 st
    rw [simFrom]
    simp only [List.map_cons]
    rw [ih (s0 + 1), List.range_succ_eq_map]
    simp only [List.map_cons, List.map_map]
    rw [List.cons.injEq]
    refine ⟨by push_cast; ring, ?_⟩
    apply List.map_congr_left
    intro a _
    simp only [Function.comp_apply, Nat.succ_eq_add_one]
    push_cast
    ring

/-- C3 (amended).  For every configuration, anchor list and positive
duration, the solver output has strictly increasing timestamps, contains at
least one keyframe, starts at timestamp `0`, and stays within
`[0, duration]`.  With zero anchors it is exactly the two keyframes
spanning `[0, duration]`; with at least one anchor it has one keyframe per
simulation step and ends at `(simSteps duration - 1)·SIM_STEP =
⌊30·duration⌋/30`, which is at most `duration` but in general below it
(the literal claim that the last keyframe sits at `duration` and that
there are always at least two keyframes fails, see the counterexample). -/
theorem solver_output_invariants (cfg : ReframeConfig)
    (anchors : List RawDetection) (duration : ℚ) (hd : 0 < duration) :
    StrictlySorted (solveTrajectory cfg anchors duration) ∧
    1 ≤ (solveTrajectory cfg anchors duration).length ∧
    ((solveTrajectory cfg anchors duration).head?.map (·.timestamp))
      = some 0 ∧
    (∀ kf ∈ solveTrajectory cfg anchors duration,
      0 ≤ kf.timestamp ∧ kf.timestamp ≤ duration) ∧
    (anchors = [] →
      (solveTrajectory cfg anchors duration).length = 2 ∧
      ((solveTrajectory cfg anchors duration).getLast?.map (·.timestamp))
        = some duration) ∧
    (anchors ≠ [] →
      ((solveTrajectory cfg anchors duration).getLast?.map (·.timestamp))
        = some (((simSteps duration - 1 : ℕ) : ℚ) * SIM_STEP)) := by
  match anchors with
  | [] =>
    refine ⟨?_, by simp [solveTrajectory], by simp [solveTrajectory], ?_,
      fun _ => ⟨by simp [solveTrajectory], by simp [solveTrajectory]⟩,
      fun h => absurd rfl h⟩
    · simp [solveTrajectory, StrictlySorted, hd]
    · intro kf hkf
      simp only [solveTrajectory, List.mem_cons, List.not_mem_nil,
        or_false] at hkf
      rcases hkf with rfl | rfl
      · exact ⟨le_refl 0, le_of_lt hd⟩
      · exact ⟨le_of_lt hd, le_refl duration⟩
  | a0 :: rest =>
    have hts : (solveTrajectory cfg (a0 :: rest) duration).map
        (·.timestamp) =
        (List.range (simSteps duration)).map
          (fun j : ℕ => (j : ℚ) * SIM_STEP) := by
      show (simFrom cfg (a0 :: rest) (simSteps duration) 0
          ⟨a0.centerX, 0, 0⟩).map (·.timestamp) = _
      rw [simFrom_map_timestamp]
      apply List.map_congr_left
      intro j _
      norm_num
    have hfloor : 0 ≤ ⌊duration * 30⌋ := by
      apply Int.floor_nonneg.mpr
      positivity
    have hN : 1 ≤ simSteps duration := by
      unfold simSteps
      omega
    obtain ⟨m, hm⟩ : ∃ m, simSteps duration = m + 1 :=
      ⟨simSteps duration - 1, by omega⟩
    have hstep : (0 : ℚ) < SIM_STEP := by norm_num [SIM_STEP]
    refine ⟨?_, ?_, ?_, ?_, ?_, ?_⟩
    · unfold StrictlySorted
      have hiff := @List.pairwise_map ReframeKeyframe ℚ
        (fun k : ReframeKeyframe => k.timestamp) (· < ·)
        (solveTrajectory cfg (a0 :: rest) duration)
      apply hiff.mp
      rw [hts, List.pairwise_map]
      exact (List.pairwise_lt_range _).imp
        (fun hab => mul_lt_mul_of_pos_right (Nat.cast_lt.mpr hab) hstep)
    · have hlen := congrArg List.length hts
      simp only [List.length_map, List.length_range] at hlen
      omega
    · rw [← List.head?_map, hts, hm, List.range_succ_eq_map]
      simp
    · intro kf hkf
      have hmem : kf.timestamp ∈ (solveTrajectory cfg (a0 :: rest)
          duration).map (·.timestamp) := List.mem_map_of_mem _ hkf
      rw [hts] at hmem
      simp only [List.mem_map, List.mem_range] at hmem
      obtain ⟨j, hj, hjeq⟩ := hmem
      rw [← hjeq]
      constructor
      · positivity
      · have hjle : (j : ℤ) ≤ ⌊duration * 30⌋ := by
          unfold simSteps at hj
          omega
        have hjq : (j : ℚ) ≤ duration * 30 := by
          have := Int.le_floor.mp hjle
          exact_mod_cast this
        rw [SIM_STEP]
        linarith
    · intro h
      exact absurd h (by simp)
    · intro _
      rw [← List.getLast?_map, hts, hm, List.range_succ, List.map_append]
      simp

/-- A concrete anchor used in the C3 counterexample. -/
def exAnchor : RawDetection := ⟨0, 1/2, 1/2, 1/10, 1/10, 50, false⟩

/-- C3 counterexample.  With one anchor and duration `1/60` (a positive
duration shorter than one simulation step) the solver emits a single
keyframe at `t = 0`: the output does not contain at least 2 keyframes and
its last timestamp `0` is not the duration `1/60`. -/
theorem solver_short_duration_counterexample :
    (solveTrajectory ⟨.smart, .normal, .normal⟩ [exAnchor] (1/60)).length
      = 1 ∧
    ((solveTrajectory ⟨.smart, .normal, .normal⟩ [exAnchor]
      (1/60)).getLast?.map (·.timestamp)) = some 0 ∧
    (0 : ℚ) ≠ 1/60 := by
  have hsteps : simSteps (1/60) = 1 := by
    have : ⌊(1/60 : ℚ) * 30⌋ = 0 := by
      exact Int.floor_eq_iff.mpr (by norm_num)
    unfold simSteps
    rw [this]
    decide
  refine ⟨?_, ?_, by norm_num⟩
  · show (simFrom _ _ (simSteps (1/60)) 0 _).length = 1
    rw [hsteps, simFrom, simFrom]
    rfl
  · show ((simFrom _ _ (simSteps (1/60)) 0 _).getLast?.map (·.timestamp))
      = some 0
    rw [hsteps, simFrom, simFrom]
    simp

/-- C3 witness.  Instantiates `solver_output_invariants` with the default
configuration, no anchors and duration `1`. -/
theorem solver_output_invariants_witness :
    (0 : ℚ) < 1 ∧
    (StrictlySorted (solveTrajectory ⟨.smart, .normal, .normal⟩ [] 1) ∧
     1 ≤ (solveTrajectory ⟨.smart, .normal, .normal⟩ [] 1).length ∧
     ((solveTrajectory ⟨.smart, .normal, .normal⟩ [] 1).head?.map
       (·.timestamp)) = some 0 ∧
     (∀ kf ∈ solveTrajectory ⟨.smart, .normal, .normal⟩ [] 1,
       0 ≤ kf.timestamp ∧ kf.timestamp ≤ 1) ∧
     (([] : List RawDetection) = [] →
       (solveTrajectory ⟨.smart, .normal, .normal⟩ [] 1).length = 2 ∧
       ((solveTrajectory ⟨.smart, .normal, .normal⟩ [] 1).getLast?.map
         (·.timestamp)) = some 1) ∧
     (([] : List RawDetection) ≠ [] →
       ((solveTrajectory ⟨.smart, .normal, .normal⟩ [] 1).getLast?.map
         (·.timestamp)) = some (((simSteps 1 - 1 : ℕ) : ℚ) * SIM_STEP))) :=
  ⟨by norm_num,
   solver_output_invariants ⟨.smart, .normal, .normal⟩ [] 1 (by norm_num)⟩

/-! ## Phase 1: visual echo scan (shot detection) -/

/-- `ShotSegment` from `reframeService.ts` (`{start, end, isStatic}`; the
source field `end` is a Lean keyword and is called `stop` here). -/
structure ShotSegment where
  start : ℚ
  stop : ℚ
  isStatic : Bool
deriving Repr, DecidableEq

/-- `CUT_THRESHOLD = 0.25`. -/
def CUT_THRESHOLD : ℚ := 1/4

/-- `STATIC_THRESHOLD = 0.03`. -/
def STATIC_THRESHOLD : ℚ := 3/100

/-- Mutable state of the phase-1 loop: accumulated `shots`, current
`shotStart`, `lastTime` (previous sample time) and the static flag of the
current shot. -/
structure P1State where
  shots : List ShotSegment
  shotStart : ℚ
  lastTime : ℚ
  isStatic : Bool
deriving Repr, DecidableEq

/-- One iteration of the phase-1 loop at sample index `i`
(`t = i · interval`).  The first sample (`i = 0`) has no previous pixels,
so no difference is computed; for `i ≥ 1` the pixel difference
`diffs (i-1)` against the previous sample is classified: above
`CUT_THRESHOLD` the current shot is closed with `end = lastTime` and a new
shot starts at `t` (leaving the span `(lastTime, t)` in no segment); above
`STATIC_THRESHOLD` the shot is marked non-static.  Every iteration ends
with `lastTime = t`. -/
def p1Step (interval : ℚ) (diffs : ℕ → ℚ) (s : P1State) (i : ℕ) :
    P1State :=
  let t := (i : ℚ) * interval
  if i = 0 then { s with lastTime := t }
  else
    let diff := diffs (i - 1)
    if CUT_THRESHOLD < diff then
      { shots := s.shots ++ [⟨s.shotStart, s.lastTime, s.isStatic⟩],
        shotStart := t, lastTime := t, isStatic := true }
    else if STATIC_THRESHOLD < diff then
      { s with isStatic := false, lastTime := t }
    else
      { s with lastTime := t }

/-- Iteration count of the phase-1 loop
`for (let t = 0; t < duration; t += PHASE1_INTERVAL)`: the indices `i`
with `i · interval < duration`, i.e. `⌈duration / interval⌉` of them. -/
def phase1Steps (interval duration : ℚ) : ℕ := ⌈duration / interval⌉.toNat

/-- The phase-1 visual echo scan (`reframeService.ts` lines 265-308) as a
function of the per-sample pixel-difference trace `diffs`: run the loop,
then push the final segment `{start: shotStart, end: duration}`. -/
def phase1Scan (interval duration : ℚ) (diffs : ℕ → ℚ) :
    List ShotSegment :=
  let fin := (List.range (phase1Steps interval duration)).foldl
    (p1Step interval diffs) ⟨[], 0, 0, true⟩
  fin.shots ++ [⟨fin.shotStart, duration, fin.isStatic⟩]

/-- The activity trace used in the C4 counterexample: difference `0.5`
between samples 0 and 1, then quiet. -/
def cexDiffs : ℕ → ℚ := fun i => if i = 0 then 1/2 else 0

/-- C4 counterexample.  On a 3-second timeline sampled at 1-second
intervals with a hard cut detected at the `t = 1` sample, the scan yields
`[{start: 0, end: 0}, {start: 1, end: 3}]`: the first segment ends at `0`
while the next starts at `1`, so the segments are not contiguous and the
span `(0, 1)` lies in no segment — not an exact partition of
`[0, duration]`. -/
theorem phase1_gap_counterexample :
    phase1Scan 1 3 cexDiffs = [⟨0, 0, true⟩, ⟨1, 3, true⟩] ∧
    ¬ List.Chain' (fun a b => a.stop = b.start) (phase1Scan 1 3 cexDiffs)
    := by
  have hsteps : phase1Steps 1 3 = 3 := by
    unfold phase1Steps
    norm_num
    decide
  have h1 : phase1Scan 1 3 cexDiffs = [⟨0, 0, true⟩, ⟨1, 3, true⟩] := by
    unfold phase1Scan
    rw [hsteps]
    have hr : List.range 3 = [0, 1, 2] := by decide
    rw [hr]
    norm_num [List.foldl, p1Step, cexDiffs, CUT_THRESHOLD,
      STATIC_THRESHOLD]
  refine ⟨h1, ?_⟩
  rw [h1]
  simp only [List.chain'_cons, List.chain'_singleton, and_true]
  norm_num

lemma P1Inv_step (interval : ℚ) (diffs : ℕ → ℚ) (i : ℕ)
    (s : P1State) (hi : 0 < interval)
    (h1 : s.shotStart ≤ s.lastTime)
    (h2 : s.lastTime = ((i - 1 : ℕ) : ℚ) * interval)
    (h3 : List.Chain' (fun a b => a.stop ≤ b.start) s.shots)
    (h4 : ∀ sg ∈ s.shots, sg.start ≤ sg.stop)
    (h5 : ∀ sg, s.shots.getLast? = some sg → sg.stop ≤ s.shotStart)
    (h6 : s.shots = [] → s.shotStart = 0)
    (h7 : ∀ sg, s.shots.head? = some sg → sg.start = 0) :
    (p1Step interval diffs s i).shotStart ≤
      (p1Step interval diffs s i).lastTime ∧
    (p1Step interval diffs s i).lastTime =
      ((i + 1 - 1 : ℕ) : ℚ) * interval ∧
    List.Chain' (fun a b => a.stop ≤ b.start)
      (p1Step interval diffs s i).shots ∧
    (∀ sg ∈ (p1Step interval diffs s i).shots, sg.start ≤ sg.stop) ∧
    (∀ sg, (p1Step interval diffs s i).shots.getLast? = some sg →
      sg.stop ≤ (p1Step interval diffs s i).shotStart) ∧
    ((p1Step interval diffs s i).shots = [] →
      (p1Step interval diffs s i).shotStart = 0) ∧
    (∀ sg, (p1Step interval diffs s i).shots.head? = some sg →
      sg.start = 0) := by
  have hlast_le : s.lastTime ≤ (i : ℚ) * interval := by
    rw [h2]
    apply mul_le_mul_of_nonneg_right _ (le_of_lt hi)
    exact_mod_cast Nat.sub_le i 1
  by_cases h0 : i = 0
  · subst h0
    simp only [p1Step, if_pos rfl, Nat.cast_zero, zero_mul]
    refine ⟨?_, by norm_num, h3, h4, h5, h6, h7⟩
    have hl0 : s.lastTime = 0 := by rw [h2]; norm_num
    rw [hl0] at h1
    exact h1
  · simp only [p1Step, if_neg h0]
    have hcast : ((i + 1 - 1 : ℕ) : ℚ) = (i : ℚ) := by norm_num
    by_cases hcut : CUT_THRESHOLD < diffs (i - 1)
    · simp only [if_pos hcut]
      refine ⟨le_refl _, by rw [hcast], ?_, ?_, ?_, ?_, ?_⟩
      · rw [List.chain'_append]
        refine ⟨h3, List.chain'_singleton _, ?_⟩
        intro x hx y hy
        simp only [List.head?_cons, Option.mem_def,
          Option.some.injEq] at hy
        subst hy
        exact h5 x hx
      · intro sg hsg
        rcases List.mem_append.mp hsg with h | h
        · exact h4 sg h
        · simp only [List.mem_singleton] at h
          subst h
          exact h1
      · intro sg hsg
        rw [List.getLast?_concat] at hsg
        injection hsg with hsg
        subst hsg
        exact hlast_le
      · intro habs
        exact absurd habs (by simp)
      · intro sg hsg
        cases hshots : s.shots with
        | nil =>
          rw [hshots] at hsg
          simp only [List.nil_append, List.head?_cons,
            Option.some.injEq] at hsg
          subst hsg
          exact h6 hshots
        | cons a l =>
          rw [hshots] at hsg
          simp only [List.cons_append, List.head?_cons,
            Option.some.injEq] at hsg
          subst hsg
          apply h7
          rw [hshots]
          rfl
    · simp only [if_neg hcut]
      by_cases hstat : STATIC_THRESHOLD < diffs (i - 1)
      · simp only [if_pos hstat]
        exact ⟨le_trans h1 hlast_le, by rw [hcast], h3, h4, h5, h6, h7⟩
      · simp only [if_neg hstat]
        exact ⟨le_trans h1 hlast_le, by rw [hcast], h3, h4, h5, h6, h7⟩

lemma P1Inv_fold (interval : ℚ) (diffs : ℕ → ℚ)
    (hi : 0 < interval) :
    ∀ n : ℕ,
    let s := (List.range n).foldl (p1Step interval diffs) ⟨[], 0, 0, true⟩
    s.shotStart ≤ s.lastTime ∧
    s.lastTime = ((n - 1 : ℕ) : ℚ) * interval ∧
    List.Chain' (fun a b => a.stop ≤ b.start) s.shots ∧
    (∀ sg ∈ s.shots, sg.start ≤ sg.stop) ∧
    (∀ sg, s.shots.getLast? = some sg → sg.stop ≤ s.shotStart) ∧
    (s.shots = [] → s.shotStart = 0) ∧
    (∀ sg, s.shots.head? = some sg → sg.start = 0) := by
  intro n
  induction n with
  | zero =>
    simp only [List.range_zero, List.foldl_nil]
    refine ⟨le_refl 0, by norm_num, List.chain'_nil, by simp, by simp,
      by simp, by simp⟩
  | succ n ih =>
    rw [List.range_succ, List.foldl_append, List.foldl_cons,
      List.foldl_nil]
    obtain ⟨h1, h2, h3, h4, h5, h6, h7⟩ := ih
    exact P1Inv_step interval diffs n _ hi h1 h2 h3 h4 h5 h6 h7

/-- C4 (amended).  For every positive sample interval and duration and
every activity trace, the segments produced by the phase-1 scan are sorted
and non-overlapping (each segment ends no later than the next begins),
every segment has `start ≤ end`, the first segment starts at `0` and the
last ends at `duration`.  They are however not contiguous in general: at
each detected cut the closed segment ends at the previous sample time
while the next segment starts one full interval later (see the
counterexample), so the literal exact-partition claim fails. -/
theorem phase1_partition_properties (interval duration : ℚ)
    (diffs : ℕ → ℚ) (hi : 0 < interval) (hd : 0 < duration) :
    ((phase1Scan interval duration diffs).head?.map (·.start)) = some 0 ∧
    ((phase1Scan interval duration diffs).getLast?.map (·.stop)) =
      some duration ∧
    List.Chain' (fun a b => a.stop ≤ b.start)
      (phase1Scan interval duration diffs) ∧
    (∀ sg ∈ phase1Scan interval duration diffs, sg.start ≤ sg.stop) := by
  obtain ⟨h1, h2, h3, h4, h5, h6, h7⟩ :=
    P1Inv_fold interval diffs hi (phase1Steps interval duration)
  set fin := (List.range (phase1Steps interval duration)).foldl
    (p1Step interval diffs) ⟨[], 0, 0, true⟩ with hfin
  have hscan : phase1Scan interval duration diffs =
      fin.shots ++ [⟨fin.shotStart, duration, fin.isStatic⟩] := rfl
  have hstart_le : fin.shotStart ≤ duration := by
    apply le_trans h1
    rw [h2]
    set M := phase1Steps interval duration with hM
    by_cases hM0 : M = 0
    · rw [hM0]
      norm_num
      exact le_of_lt hd
    · have hM1 : 1 ≤ M := Nat.one_le_iff_ne_zero.mpr hM0
      have hceil_pos : (0 : ℤ) < ⌈duration / interval⌉ := by
        have : (0 : ℤ) < (M : ℤ) := by exact_mod_cast hM1
        unfold phase1Steps at hM
        omega
      have hMZ : (M : ℤ) = ⌈duration / interval⌉ := by
        unfold phase1Steps at hM
        rw [hM]
        exact Int.toNat_of_nonneg (le_of_lt hceil_pos)
      have hub : ((M : ℚ) - 1) < duration / interval := by
        have hc1 : ((⌈duration / interval⌉ : ℤ) : ℚ) <
            duration / interval + 1 := Int.ceil_lt_add_one _
        have hMQ : (M : ℚ) = ((⌈duration / interval⌉ : ℤ) : ℚ) := by
          exact_mod_cast hMZ
        rw [hMQ]
        linarith
      have hcastM : ((M - 1 : ℕ) : ℚ) = (M : ℚ) - 1 := by
        push_cast [hM1]
        ring
      rw [hcastM]
      have := (lt_div_iff₀ hi).mp hub
      linarith
  refine ⟨?_, ?_, ?_, ?_⟩
  · rw [hscan]
    cases hshots : fin.shots with
    | nil => simp [hshots, h6 hshots]
    | cons a l =>
      have ha : a.start = 0 := by
        apply h7
        rw [hshots]
        rfl
      simp [hshots, ha]
  · rw [hscan, List.getLast?_concat]
    rfl
  · rw [hscan, List.chain'_append]
    refine ⟨h3, List.chain'_singleton _, ?_⟩
    intro x hx y hy
    simp only [List.head?_cons, Option.mem_def, Option.some.injEq] at hy
    subst hy
    exact h5 x hx
  · intro sg hsg
    rw [hscan] at hsg
    rcases List.mem_append.mp hsg with h | h
    · exact h4 sg h
    · simp only [List.mem_singleton] at h
      subst h
      exact hstart_le

/-- C4 witness.  Instantiates `phase1_partition_properties` at interval 1,
duration 2 and the all-zero activity trace. -/
theorem phase1_partition_properties_witness :
    (0 : ℚ) < 1 ∧ (0 : ℚ) < 2 ∧
    (((phase1Scan 1 2 (fun _ => 0)).head?.map (·.start)) = some 0 ∧
     ((phase1Scan 1 2 (fun _ => 0)).getLast?.map (·.stop)) = some 2 ∧
     List.Chain' (fun a b => a.stop ≤ b.start)
       (phase1Scan 1 2 (fun _ => 0)) ∧
     (∀ sg ∈ phase1Scan 1 2 (fun _ => 0), sg.start ≤ sg.stop)) :=
  ⟨by norm_num, by norm_num,
   phase1_partition_properties 1 2 (fun _ => 0) (by norm_num)
     (by norm_num)⟩

/-! ## Phase 2: adaptive recursive anchor scan (`processSegment`) -/

/-- The CHECK-3 read of the phase-1 activity map: the maximum recorded
difference strictly inside `(t1, t2)` (0 when none). -/
def maxActivityIn (activity : List (Rat × Rat)) (t1 t2 : Rat) : Rat :=
  activity.foldl (fun m p => if t1 < p.1 ∧ p.1 < t2 then max m p.2 else m) 0

/-- CHECK 1 and CHECK 2 of `processSegment`: `(needsSplit, forceSplit)`
from the boundary detections.  An existence mismatch forces a split; two
detections split when their horizontal centers differ by more than `0.1`
and force when by more than `0.3`. -/
def splitFlags (d1 d2 : Option RawDetection) : Bool × Bool :=
  match d1, d2 with
  | none, some _ => (true, true)
  | some _, none => (true, true)
  | some a, some b =>
    let dx := |a.centerX - b.centerX|
    (decide (1/10 < dx), decide (3/10 < dx))
  | none, none => (false, false)

/-- `processSegment(t1, t2, d1, d2, depth)` from `reframeService.ts` lines
314-371, with the face detector modelled as a pure oracle `detect` and the
phase-1 activity map as `activity`.  Returns the anchor detections pushed
by this call, innermost first per the source recursion order; `none` means
the fuel ran out (the termination theorem shows enough fuel always
exists).  `stopT` is `RECURSION_STOP_THRESHOLD`; `faster` tells whether
`scanMode === 'faster'` (the early-stop branch). -/
def processSegment (stopT : Rat) (faster : Bool)
    (activity : List (Rat × Rat)) (detect : Rat → Option RawDetection) :
    Nat → Rat → Rat → Option RawDetection → Option RawDetection → Nat →
    Option (List RawDetection)
  | 0, _, _, _, _, _ => none
  | fuel + 1, t1, t2, d1, d2, depth =>
    if t2 - t1 < stopT then some []
    else
      let flags := splitFlags d1 d2
      let needsSplit :=
        if flags.1 then true
        else decide (STATIC_THRESHOLD * 3 < maxActivityIn activity t1 t2)
      if needsSplit then
        let mid := (t1 + t2) / 2
        let dMid := detect mid
        let acc := match dMid with
          | some d => [d]
          | none => []
        if ¬ flags.2 = true ∧ 2 < depth ∧ faster = true then some acc
        else
          match processSegment stopT faster activity detect fuel t1 mid d1
              dMid (depth + 1),
            processSegment stopT faster activity detect fuel mid t2 dMid d2
              (depth + 1) with
          | some l, some r => some (acc ++ l ++ r)
          | _, _ => none
      else some []

/-- C5.  The adaptive recursive scan terminates for every finite interval
and positive stop threshold, with recursion depth bounded
logarithmically: whenever the interval width `t2 - t1` is below
`stopT · 2^d` (i.e. `d ≥ log2(width / stopT)`), fuel `d + 1` levels deep
suffices — each recursive call exactly halves the interval width. -/
theorem processSegment_terminates (stopT : Rat) (faster : Bool)
    (activity : List (Rat × Rat)) (detect : Rat → Option RawDetection)
    (d : Nat) :
    ∀ (t1 t2 : Rat) (d1 d2 : Option RawDetection) (depth fuel : Nat),
      0 < stopT → t2 - t1 < stopT * 2 ^ d → d < fuel →
      (processSegment stopT faster activity detect fuel t1 t2 d1 d2
        depth).isSome = true := by
  induction d with
  | zero =>
    intro t1 t2 d1 d2 depth fuel hstop hw hfuel
    obtain ⟨f, rfl⟩ : ∃ f, fuel = f + 1 := ⟨fuel - 1, by omega⟩
    have hsmall : t2 - t1 < stopT := by
      rw [pow_zero, mul_one] at hw
      exact hw
    simp [processSegment, hsmall]
  | succ n ih =>
    intro t1 t2 d1 d2 depth fuel hstop hw hfuel
    obtain ⟨f, rfl⟩ : ∃ f, fuel = f + 1 := ⟨fuel - 1, by omega⟩
    by_cases hsmall : t2 - t1 < stopT
    · simp [processSegment, hsmall]
    · have hpow : stopT * 2 ^ (n + 1) = stopT * 2 ^ n * 2 := by
        rw [pow_succ]; ring
      have hwidth : (t1 + t2) / 2 - t1 < stopT * 2 ^ n ∧
          t2 - (t1 + t2) / 2 < stopT * 2 ^ n := by
        constructor <;> · rw [hpow] at hw; linarith
      have hrec1 := ih t1 ((t1 + t2) / 2) d1
        (detect ((t1 + t2) / 2)) (depth + 1) f hstop hwidth.1 (by omega)
      have hrec2 := ih ((t1 + t2) / 2) t2 (detect ((t1 + t2) / 2)) d2
        (depth + 1) f hstop hwidth.2 (by omega)
      rw [processSegment]
      simp only [if_neg hsmall]
      set flags := splitFlags d1 d2 with hflags
      by_cases hns : (if flags.1 then true
          else decide (STATIC_THRESHOLD * 3 <
            maxActivityIn activity t1 t2)) = true
      · simp only [hns, if_true]
        by_cases hearly : ¬ flags.2 = true ∧ 2 < depth ∧ faster = true
        · simp only [if_pos hearly]
          cases detect ((t1 + t2) / 2) <;> simp
        · simp only [if_neg hearly]
          obtain ⟨l, hl⟩ := Option.isSome_iff_exists.mp hrec1
          obtain ⟨r, hr⟩ := Option.isSome_iff_exists.mp hrec2
          rw [hl, hr]
          cases detect ((t1 + t2) / 2) <;> simp
      · simp only [Bool.not_eq_true] at hns
        simp only [hns, Bool.false_eq_true, if_false]
        simp

/-- C5 witness.  Applies `processSegment_terminates` to the interval
`[0, 10]` with stop threshold `1/2` (so depth bound `5`, since
`10 < (1/2)·2^5`), a detector that never fires and an empty activity
trace. -/
theorem processSegment_terminates_witness :
    (0 : Rat) < 1/2 ∧ (10 : Rat) - 0 < (1/2) * 2 ^ 5 ∧ 5 < 6 ∧
    (processSegment (1/2) false [] (fun _ => none) 6 0 10 none none
      0).isSome = true :=
  ⟨by norm_num, by norm_num, by norm_num,
   processSegment_terminates (1/2) false [] (fun _ => none) 5 0 10 none
     none 0 6 (by norm_num) (by norm_num) (by norm_num)⟩

/-! ## Decode-encode loop: forced keyframes (GOP ceiling) -/

/-- `KEYFRAME_INTERVAL = 2_000_000` microseconds (2-second GOP ceiling). -/
def KEYFRAME_INTERVAL : Int := 2000000

/-- The keyframe-request rule of the decoder output callback
(`worker.ts`): for each decoded frame with renormalized timestamp `ts`,
request a keyframe iff `ts - lastKeyFrameTime ≥ KEYFRAME_INTERVAL`, and
update `lastKeyFrameTime` on request.  `lastKF` starts at
`-KEYFRAME_INTERVAL`, so the first frame always requests one. -/
def keyFlagsAux (lastKF : Int) : List Int → List Bool
  | [] => []
  | ts :: rest =>
    let should := decide (KEYFRAME_INTERVAL ≤ ts - lastKF)
    should :: keyFlagsAux (if should then ts else lastKF) rest

/-- Keyframe-request flags for a run, with the initial
`lastKeyFrameTime = -KEYFRAME_INTERVAL`. -/
def keyFlags (l : List Int) : List Bool := keyFlagsAux (-KEYFRAME_INTERVAL) l

/-- Number of keyframes requested across a run. -/
def keyCount (l : List Int) : Nat := (keyFlags l).count true

/-- Frames are timestamp-ordered with consecutive gaps at most `g`. -/
def ChainGap (g : Int) (l : List Int) : Prop :=
  List.Chain' (fun a b => a ≤ b ∧ b - a ≤ g) l

lemma keyFlagsAux_last_lt (g : Int) :
    ∀ (l : List Int) (K : Int),
      ChainGap g l →
      (∀ t0, l.head? = some t0 → t0 ≤ K + KEYFRAME_INTERVAL + g) →
      ∀ tl, l.getLast? = some tl →
        tl < K + ((keyFlagsAux K l).count true) * (KEYFRAME_INTERVAL + g) +
          KEYFRAME_INTERVAL := by
  intro l
  induction l with
  | nil =>
    intro K _ _ tl htl
    exact absurd htl (by simp)
  | cons t rest ih =>
    intro K hchain hhead tl htl
    have ht : t ≤ K + KEYFRAME_INTERVAL + g := hhead t rfl
    have hKI : (0 : Int) < KEYFRAME_INTERVAL := by decide
    simp only [keyFlagsAux]
    by_cases hshould : KEYFRAME_INTERVAL ≤ t - K
    · rw [decide_eq_true hshould]
      simp only [if_true, List.count_cons_self]
      cases rest with
      | nil =>
        simp only [List.getLast?_singleton, Option.some.injEq] at htl
        subst htl
        simp only [keyFlagsAux, List.count_nil]
        push_cast
        linarith
      | cons t1 rest1 =>
        have hchain2 := List.chain'_cons.mp hchain
        have ht1 : t1 ≤ t + g := by linarith [hchain2.1.2]
        have hrec := ih t hchain2.2
          (fun t0 h0 => by
            simp only [List.head?_cons, Option.some.injEq] at h0
            subst h0
            linarith)
          tl (by rwa [List.getLast?_cons_cons] at htl)
        push_cast
        push_cast at hrec
        linarith
    · have htK : t - K < KEYFRAME_INTERVAL := by omega
      rw [decide_eq_false hshould]
      have hcount : List.count true (false :: keyFlagsAux
          (if false = true then t else K) rest) =
          List.count true (keyFlagsAux K rest) := by
        simp [List.count_cons]
      rw [hcount]
      cases rest with
      | nil =>
        simp only [List.getLast?_singleton, Option.some.injEq] at htl
        subst htl
        simp only [keyFlagsAux, List.count_nil]
        push_cast
        linarith
      | cons t1 rest1 =>
        have hchain2 := List.chain'_cons.mp hchain
        have ht1 : t1 ≤ t + g := by linarith [hchain2.1.2]
        have hrec := ih K hchain2.2
          (fun t0 h0 => by
            simp only [List.head?_cons, Option.some.injEq] at h0
            subst h0
            linarith)
          tl (by rwa [List.getLast?_cons_cons] at htl)
        linarith

/-- C6 (amended).  For a renormalized, timestamp-ordered decode run
starting at `0` whose consecutive frames are at most `g` apart: the first
frame always requests a keyframe, and the requested-keyframe count `m`
satisfies `last < m · (2_000_000 + g)` — i.e. `m > duration/(2 000 000+g)`.
The literal spec bound `m ≥ ⌊duration / 2_000_000⌋` does not hold for
arbitrary frame spacings (see the counterexample); it needs the gap term. -/
theorem keyframe_request_properties (rest : List Int) (g : Int)
    (hg : 0 ≤ g) (hchain : ChainGap g ((0 : Int) :: rest)) :
    (keyFlags ((0 : Int) :: rest)).head? = some true ∧
    ((0 : Int) :: rest).getLast (List.cons_ne_nil 0 rest) <
      (keyCount ((0 : Int) :: rest) : Int) * (KEYFRAME_INTERVAL + g) := by
  constructor
  · rw [keyFlags, keyFlagsAux]
    simp
  · have hlast := keyFlagsAux_last_lt g ((0 : Int) :: rest)
      (-KEYFRAME_INTERVAL) hchain
      (fun t0 h0 => by
        simp only [List.head?_cons, Option.some.injEq] at h0
        subst h0
        simp only [neg_add_cancel, zero_add]
        exact hg)
      (((0 : Int) :: rest).getLast (List.cons_ne_nil 0 rest))
      (List.getLast?_eq_getLast _ _)
    rw [keyCount, keyFlags]
    push_cast at hlast ⊢
    linarith

/-- C6 counterexample.  The renormalized frame sequence `[0, 10⁶·10]`
(non-decreasing, first at 0) requests only 2 keyframes, but the spec
bound `⌊output_duration / 2_000_000⌋ = ⌊10_000_000 / 2_000_000⌋ = 5` is
larger: the claimed lower bound fails for sparse frames. -/
theorem keyframe_count_counterexample :
    keyCount [0, 10000000] = 2 ∧
    ((10000000 : Int) - 0).toNat / 2000000 = 5 ∧
    ¬ (5 : Nat) ≤ 2 := by
  refine ⟨?_, by decide, by norm_num⟩
  decide

/-- C6 witness.  Applies `keyframe_request_properties` to the run
`[0, 10⁶, 2·10⁶]` with gap bound `10⁶`. -/
theorem keyframe_request_properties_witness :
    (0 : Int) ≤ 1000000 ∧
    ChainGap 1000000 [0, 1000000, 2000000] ∧
    ((keyFlags [(0 : Int), 1000000, 2000000]).head? = some true ∧
     ([(0 : Int), 1000000, 2000000]).getLast
        (List.cons_ne_nil 0 [1000000, 2000000]) <
       (keyCount [(0 : Int), 1000000, 2000000] : Int) *
         (KEYFRAME_INTERVAL + 1000000)) :=
  ⟨by norm_num,
   by unfold ChainGap
      simp only [List.chain'_cons, List.chain'_singleton, and_true]
      norm_num,
   keyframe_request_properties [1000000, 2000000] 1000000 (by norm_num)
     (by unfold ChainGap
         simp only [List.chain'_cons, List.chain'_singleton, and_true]
         norm_num)⟩

/-! ## Chunk selection and pre-roll (C7) -/

/-- An encoded video sample as seen by the worker: timestamp in
microseconds and the sync flag (`type === 'key'`). -/
structure Chunk where
  timestamp : Int
  isKey : Bool
deriving Repr, DecidableEq

instance : Inhabited Chunk := ⟨⟨0, false⟩⟩

/-- Chunk selection of the first `worker.ts` pipeline (lines 144-145):
`videoChunks.filter(c => c.timestamp >= startMicro && c.timestamp <=
endMicro)` — no keyframe backtrack, the feed starts at the first chunk
inside the trim range whatever its type. -/
def validChunksV1 (chunks : List Chunk) (startU endU : Int) : List Chunk :=
  chunks.filter
    (fun c => decide (startU ≤ c.timestamp) && decide (c.timestamp ≤ endU))

/-- `findIndex(c => c.timestamp >= startMicro)` of the embedded worker,
as an optional index. -/
def findStart (startU : Int) : List Chunk → Option Nat
  | [] => none
  | c :: rest =>
    if startU ≤ c.timestamp then some 0
    else (findStart startU rest).map (· + 1)

/-- `startIndex` of the embedded worker: the found index, with the
`findIndex === -1` fallback to `0`. -/
def startIndexOf (chunks : List Chunk) (startU : Int) : Nat :=
  (findStart startU chunks).getD 0

/-- The keyframe backtrack loop of the embedded worker:
`while (keyFrameIndex > 0 && chunks[keyFrameIndex].type !== 'key')
keyFrameIndex--`. -/
def backtrack (chunks : List Chunk) : Nat → Nat
  | 0 => 0
  | i + 1 =>
    if (chunks.getD (i + 1) default).isKey then i + 1
    else backtrack chunks i

/-- The index the embedded worker starts feeding from. -/
def keyIdxOf (chunks : List Chunk) (startU : Int) : Nat :=
  backtrack chunks (startIndexOf chunks startU)

/-- Chunk selection of the embedded worker (`RENDER_WORKER_CODE`, lines
580-594): from the backtracked keyframe index, push chunks until the
first timestamp beyond `endMicro`. -/
def selectChunksEmbedded (chunks : List Chunk) (startU endU : Int) :
    List Chunk :=
  (chunks.drop (keyIdxOf chunks startU)).takeWhile
    (fun c => decide (c.timestamp ≤ endU))

/-- The pre-roll discard of the embedded worker decoder callback (lines
649-654): a decoded frame with `timestamp < startMicro` is closed and
dropped; the composited frames are the remaining ones. -/
def preRollKeep (startU : Int) (frames : List Int) : List Int :=
  frames.filter (fun ts => ! decide (ts < startU))

/-- C7 counterexample.  With chunks `key@0, delta@1.5s, delta@1.6s` and
trim start `1s`, the first `worker.ts` pipeline (the cited
`validChunks` filter) begins its decoder feed at `delta@1.5s`: a
non-keyframe strictly after the trim start, not the nearest keyframe at
or before it (`key@0`). -/
theorem feed_start_counterexample :
    (validChunksV1 [⟨0, true⟩, ⟨1500000, false⟩, ⟨1600000, false⟩]
      1000000 2000000).head? = some ⟨1500000, false⟩ ∧
    (Chunk.mk 1500000 false).isKey = false ∧
    ¬ ((1500000 : Int) ≤ 1000000) := by
  refine ⟨by decide, rfl, by norm_num⟩

lemma backtrack_le (chunks : List Chunk) : ∀ i, backtrack chunks i ≤ i := by
  intro i
  induction i with
  | zero => exact le_refl 0
  | succ n ih =>
    rw [backtrack]
    by_cases hk : (chunks.getD (n + 1) default).isKey = true
    · rw [if_pos hk]
    · rw [if_neg hk]
      omega

lemma backtrack_key (chunks : List Chunk)
    (hk0 : (chunks.getD 0 default).isKey = true) :
    ∀ i, (chunks.getD (backtrack chunks i) default).isKey = true := by
  intro i
  induction i with
  | zero => exact hk0
  | succ n ih =>
    rw [backtrack]
    by_cases hk : (chunks.getD (n + 1) default).isKey = true
    · rw [if_pos hk]
      exact hk
    · rw [if_neg hk]
      exact ih

lemma findStart_before (startU : Int) :
    ∀ (chunks : List Chunk) (i : Nat), findStart startU chunks = some i →
      ∀ j, j < i → (chunks.getD j default).timestamp < startU := by
  intro chunks
  induction chunks with
  | nil => intro i hi; exact absurd hi (by simp [findStart])
  | cons c rest ih =>
    intro i hi j hj
    rw [findStart] at hi
    by_cases hc : startU ≤ c.timestamp
    · simp only [hc, if_true, Option.some.injEq] at hi
      omega
    · simp only [hc, if_false, Option.map_eq_some'] at hi
      obtain ⟨i', hi', rfl⟩ := hi
      cases j with
      | zero =>
        simpa using lt_of_not_le hc
      | succ j' =>
        have := ih i' hi' j' (by omega)
        simpa using this

/-- C7 (amended).  In the embedded worker (`RENDER_WORKER_CODE`), when the
source stream starts with a keyframe: the feed starts at a keyframe
(`chunks[keyIdx]` is a sync sample), at or before the first chunk inside
the trim range — strictly before the trim start whenever any backtracking
happened — and pre-roll discarding keeps exactly the decoded frames with
timestamp at or after the trim start.  The `worker.ts` variants do not
backtrack at all (see the counterexample), so only the embedded pipeline
satisfies the claim, and even there the feed starts after the trim start
when the first in-range chunk is itself a keyframe. -/
theorem embedded_feed_properties (chunks : List Chunk) (startU endU : Int)
    (frames : List Int)
    (hk0 : (chunks.getD 0 default).isKey = true) :
    (chunks.getD (keyIdxOf chunks startU) default).isKey = true ∧
    keyIdxOf chunks startU ≤ startIndexOf chunks startU ∧
    (keyIdxOf chunks startU < startIndexOf chunks startU →
      (chunks.getD (keyIdxOf chunks startU) default).timestamp < startU) ∧
    (∀ c, (selectChunksEmbedded chunks startU endU).head? = some c →
      c = chunks.getD (keyIdxOf chunks startU) default) ∧
    preRollKeep startU frames =
      frames.filter (fun ts => decide (startU ≤ ts)) ∧
    (∀ ts ∈ preRollKeep startU frames, startU ≤ ts) := by
  refine ⟨backtrack_key chunks hk0 _, backtrack_le chunks _, ?_, ?_, ?_,
    ?_⟩
  · intro hlt
    rcases hfs : findStart startU chunks with _ | i
    · rw [startIndexOf, hfs] at hlt
      simp at hlt
    · have hidx : startIndexOf chunks startU = i := by
        rw [startIndexOf, hfs]; rfl
      rw [hidx] at hlt
      exact findStart_before startU chunks i hfs _ hlt
  · intro c hc
    rw [selectChunksEmbedded] at hc
    rcases hdrop : chunks.drop (keyIdxOf chunks startU) with _ | ⟨x, xs⟩
    · rw [hdrop] at hc
      exact absurd hc (by simp [List.takeWhile])
    · rw [hdrop, List.takeWhile] at hc
      by_cases hx : x.timestamp ≤ endU
      · rw [decide_eq_true hx] at hc
        simp only [List.head?_cons, Option.some.injEq] at hc
        have hget : chunks[keyIdxOf chunks startU]? = some x := by
          rw [← List.head?_drop, hdrop]
          rfl
        rw [← hc, List.getD_eq_getElem?_getD, hget]
        rfl
      · rw [decide_eq_false hx] at hc
        exact absurd hc (by simp)
  · apply List.filter_congr
    intro ts _
    rcases lt_or_le ts startU with h | h
    · rw [decide_eq_true h, decide_eq_false (not_le.mpr h)]
      rfl
    · rw [decide_eq_false (not_lt.mpr h), decide_eq_true h]
      rfl
  · intro ts hts
    rw [preRollKeep, List.mem_filter] at hts
    have := hts.2
    simp only [Bool.not_eq_true', decide_eq_false_iff_not, not_lt] at this
    exact this

/-- C7 witness.  Applies `embedded_feed_properties` to the stream
`key@0, delta@0.5s, key@1.2s, delta@1.5s` with trim `[1s, 2s]` and
decoded pre-roll timestamps `[800000, 1200000, 1500000]`. -/
theorem embedded_feed_properties_witness :
    (([⟨0, true⟩, ⟨500000, false⟩, ⟨1200000, true⟩, ⟨1500000, false⟩] :
        List Chunk).getD 0 default).isKey = true ∧
    (let chunks : List Chunk :=
      [⟨0, true⟩, ⟨500000, false⟩, ⟨1200000, true⟩, ⟨1500000, false⟩]
     (chunks.getD (keyIdxOf chunks 1000000) default).isKey = true ∧
     keyIdxOf chunks 1000000 ≤ startIndexOf chunks 1000000 ∧
     (keyIdxOf chunks 1000000 < startIndexOf chunks 1000000 →
       (chunks.getD (keyIdxOf chunks 1000000) default).timestamp
         < 1000000) ∧
     (∀ c, (selectChunksEmbedded chunks 1000000 2000000).head? = some c →
       c = chunks.getD (keyIdxOf chunks 1000000) default) ∧
     preRollKeep 1000000 [800000, 1200000, 1500000] =
       ([800000, 1200000, 1500000] : List Int).filter
         (fun ts => decide (1000000 ≤ ts)) ∧
     (∀ ts ∈ preRollKeep 1000000 [800000, 1200000, 1500000],
       (1000000 : Int) ≤ ts)) :=
  ⟨by decide,
   embedded_feed_properties
     [⟨0, true⟩, ⟨500000, false⟩, ⟨1200000, true⟩, ⟨1500000, false⟩]
     1000000 2000000 [800000, 1200000, 1500000] (by decide)⟩

/-! ## Encoder bitrate selection (C8) -/

/-- The JavaScript fallback `config.fps || 30` (an absent or zero fps
becomes 30). -/
def jsOrFps (fps : Option Nat) : Nat :=
  match fps with
  | none => 30
  | some f => if f = 0 then 30 else f

/-- `calculatedBitrate = Math.floor(pixelCount * targetFps * 0.15)`
(`0.15` modelled as the exact rational `15/100`). -/
def calculatedBitrate (width height : Nat) (fps : Option Nat) : Int :=
  ⌊((width * height * jsOrFps fps : Nat) : Rat) * (15/100)⌋

/-- `finalBitrate` of the first `worker.ts` pipeline (lines 152-156) and
of the embedded worker (identical code): `config.bitrate ? config.bitrate
: Math.max(2_000_000, calculatedBitrate)` — the JavaScript truthiness test
sends both an absent and a zero bitrate to the computed fallback. -/
def finalBitrateV1 (bitrate : Option Nat) (width height : Nat)
    (fps : Option Nat) : Int :=
  match bitrate with
  | none => max 2000000 (calculatedBitrate width height fps)
  | some b =>
    if b = 0 then max 2000000 (calculatedBitrate width height fps)
    else (b : Int)

/-- The bitrate of the second `worker.ts` pipeline (line 439):
`config.bitrate ?? 4_000_000` — nullish coalescing, so an absent bitrate
becomes the constant 4 Mbit/s and an explicit `0` is passed through. -/
def finalBitrateV2 (bitrate : Option Nat) : Int :=
  match bitrate with
  | none => 4000000
  | some b => (b : Int)

/-- C8 counterexample.  For a 1080×1920 at 30 fps render with the bitrate
field absent, the claimed formula gives `max(2_000_000, ⌊1080·1920·30·
0.15⌋) = 9_331_200`, but the second `worker.ts` pipeline configures the
encoder with `4_000_000`; with an explicit `bitrate: 0` it configures
`0`.  The claim fails for that cited variant. -/
theorem bitrate_counterexample :
    finalBitrateV2 none = 4000000 ∧
    finalBitrateV1 none 1080 1920 (some 30) = 9331200 ∧
    (4000000 : Int) ≠ 9331200 ∧
    finalBitrateV2 (some 0) = 0 := by
  refine ⟨rfl, ?_, by norm_num, rfl⟩
  rw [finalBitrateV1, calculatedBitrate]
  norm_num [jsOrFps]

/-- C8 (amended).  In the first `worker.ts` pipeline and the embedded
worker, a bitrate of 0 or absent yields
`max(2_000_000, ⌊width·height·fps·0.15⌋)` and a non-zero supplied bitrate
is used as given; the second `worker.ts` pipeline instead uses
`bitrate ?? 4_000_000` (absent ⇒ 4 Mbit/s constant, explicit 0 ⇒ 0). -/
theorem bitrate_selection (w h f b : Nat) (hb : b ≠ 0) :
    finalBitrateV1 none w h (some f) =
      max 2000000 (calculatedBitrate w h (some f)) ∧
    finalBitrateV1 (some 0) w h (some f) =
      max 2000000 (calculatedBitrate w h (some f)) ∧
    finalBitrateV1 (some b) w h (some f) = (b : Int) ∧
    finalBitrateV2 (some b) = (b : Int) ∧
    finalBitrateV2 none = 4000000 := by
  refine ⟨rfl, rfl, ?_, rfl, rfl⟩
  rw [finalBitrateV1]
  simp [hb]

/-- C8 witness.  Applies `bitrate_selection` at 1280×720, 30 fps, with
supplied bitrate 5 Mbit/s. -/
theorem bitrate_selection_witness :
    (5000000 : Nat) ≠ 0 ∧
    (finalBitrateV1 none 1280 720 (some 30) =
       max 2000000 (calculatedBitrate 1280 720 (some 30)) ∧
     finalBitrateV1 (some 0) 1280 720 (some 30) =
       max 2000000 (calculatedBitrate 1280 720 (some 30)) ∧
     finalBitrateV1 (some 5000000) 1280 720 (some 30) = (5000000 : Int) ∧
     finalBitrateV2 (some 5000000) = (5000000 : Int) ∧
     finalBitrateV2 none = 4000000) :=
  ⟨by norm_num, bitrate_selection 1280 720 30 5000000 (by norm_num)⟩

/-! ## MP4 muxer: add-sample before track creation (C9) -/

/-- The record passed to `file.addSample`
(`{duration, dts, cts, is_sync}`). -/
structure MuxSample where
  sampleDuration : Int
  dts : Int
  cts : Int
  isSync : Bool
deriving Repr, DecidableEq

/-- State of an `MP4Muxer` instance: optional track ids, the `started`
flag, and the samples appended per track. -/
structure MuxerState where
  videoTrackId : Option Nat
  audioTrackId : Option Nat
  started : Bool
  videoSamples : List MuxSample
  audioSamples : List MuxSample
deriving Repr, DecidableEq

/-- Error raised by the standalone muxer on an add before track init. -/
inductive MuxError
  | trackNotInitialized
deriving Repr, DecidableEq

/-- A freshly constructed `MP4Muxer` (constructor: no tracks, not
started, no samples). -/
def initMuxer : MuxerState := ⟨none, none, false, [], []⟩

/-- `MP4Muxer.addVideoChunk` of the standalone module: when
`videoTrackId` is null it throws `Error("Video track not initialized")`,
otherwise it appends the sample to the video track. -/
def addVideoChunk (s : MuxerState) (c : MuxSample) :
    Except MuxError MuxerState :=
  match s.videoTrackId with
  | none => .error .trackNotInitialized
  | some _ => .ok { s with videoSamples := s.videoSamples ++ [c] }

/-- `MP4Muxer.addAudioChunk` of the standalone module (same pattern on
the audio track id). -/
def addAudioChunk (s : MuxerState) (c : MuxSample) :
    Except MuxError MuxerState :=
  match s.audioTrackId with
  | none => .error .trackNotInitialized
  | some _ => .ok { s with audioSamples := s.audioSamples ++ [c] }

/-- `addVideoChunk` of the muxer embedded in `RENDER_WORKER_CODE`: when
`videoTrackId` is null it just returns — no throw, the sample is silently
dropped and the state is unchanged. -/
def addVideoChunkEmbedded (s : MuxerState) (c : MuxSample) :
    Except MuxError MuxerState :=
  match s.videoTrackId with
  | none => .ok s
  | some _ => .ok { s with videoSamples := s.videoSamples ++ [c] }

/-- `addAudioChunk` of the embedded muxer (same silent return). -/
def addAudioChunkEmbedded (s : MuxerState) (c : MuxSample) :
    Except MuxError MuxerState :=
  match s.audioTrackId with
  | none => .ok s
  | some _ => .ok { s with audioSamples := s.audioSamples ++ [c] }

/-- C9 counterexample.  On a fresh muxer the embedded
(`RENDER_WORKER_CODE`) add operations return normally with the state
unchanged and raise no error at all: the call is silently dropped, not
rejected with `TrackNotInitialized` as the claim requires of every add
operation in the repository. -/
theorem muxer_silent_drop_counterexample :
    addVideoChunkEmbedded initMuxer ⟨0, 0, 0, true⟩ = .ok initMuxer ∧
    addVideoChunkEmbedded initMuxer ⟨0, 0, 0, true⟩ ≠
      .error .trackNotInitialized ∧
    addAudioChunkEmbedded initMuxer ⟨0, 0, 0, true⟩ = .ok initMuxer := by
  refine ⟨rfl, ?_, rfl⟩
  intro h
  rw [show addVideoChunkEmbedded initMuxer ⟨0, 0, 0, true⟩ =
    .ok initMuxer from rfl] at h
  exact Except.noConfusion h

/-- C9 (amended).  When the corresponding track has not been added, the
standalone `MP4Muxer` rejects `addVideoChunk`/`addAudioChunk` with a
track-not-initialized error and leaves the state unchanged (the throw
precedes any mutation); the muxer embedded in `RENDER_WORKER_CODE`
instead returns silently, also leaving the state unchanged but dropping
the sample without any error. -/
theorem muxer_uninitialized_behavior (s : MuxerState) (c : MuxSample)
    (hv : s.videoTrackId = none) (ha : s.audioTrackId = none) :
    addVideoChunk s c = .error .trackNotInitialized ∧
    addAudioChunk s c = .error .trackNotInitialized ∧
    addVideoChunkEmbedded s c = .ok s ∧
    addAudioChunkEmbedded s c = .ok s := by
  rw [addVideoChunk, addAudioChunk, addVideoChunkEmbedded,
    addAudioChunkEmbedded, hv, ha]
  exact ⟨rfl, rfl, rfl, rfl⟩

/-- C9 witness.  Applies `muxer_uninitialized_behavior` to the fresh
muxer and a concrete sample. -/
theorem muxer_uninitialized_behavior_witness :
    initMuxer.videoTrackId = none ∧ initMuxer.audioTrackId = none ∧
    (addVideoChunk initMuxer ⟨33333, 0, 0, true⟩ =
       .error .trackNotInitialized ∧
     addAudioChunk initMuxer ⟨33333, 0, 0, true⟩ =
       .error .trackNotInitialized ∧
     addVideoChunkEmbedded initMuxer ⟨33333, 0, 0, true⟩ =
       .ok initMuxer ∧
     addAudioChunkEmbedded initMuxer ⟨33333, 0, 0, true⟩ =
       .ok initMuxer) :=
  ⟨rfl, rfl,
   muxer_uninitialized_behavior initMuxer ⟨33333, 0, 0, true⟩ rfl rfl⟩

/-! ## Worker message protocol and cancellation (C10)

The render worker (`worker.ts` lines 17-48 and 282-293) runs
`startPipeline` inside `try / catch / finally`: the last statement of the
`try` posts the single `done` message, the `catch` posts the single
`error` message, and a `cancel` command merely calls `cleanup()`, which
closes and nulls the module-level `videoDecoder` / `videoEncoder` /
`muxer` handles.  There is no cancellation flag: a pipeline statement that
runs after a mid-run `cancel` dereferences a nulled handle
(`videoDecoder.decodeQueueSize`, `videoDecoder.decode`, `muxer.getBlob`,
…), throws, and is caught — so a cancelled run still posts a terminal
message, namely `error`.  The model below abstracts the pipeline body as
`steps` sequential handle-touching operations separated by suspension
points (the `await`s), with `cancelAt = some i` meaning the cancel
handler runs at suspension point `i`. -/

/-- Terminal worker messages (`done{output}` and `error{message}`, with
payloads abstracted away). -/
inductive TermMsg
  | done
  | error
deriving Repr, DecidableEq

/-- Execute the remaining pipeline steps: before each step the pending
cancel (when scheduled at the current suspension point) nulls the
handles; a step executed with nulled handles throws, which the `catch`
turns into one `error` post; finishing all steps posts one `done`. -/
def pipelineRun : Nat → Bool → Option Nat → Nat → List TermMsg
  | 0, alive, _, _ => if alive then [.done] else [.error]
  | r + 1, alive, cancelAt, i =>
    let alive2 := if cancelAt = some i then false else alive
    if alive2 then pipelineRun r alive2 cancelAt (i + 1)
    else [.error]

/-- A full worker run: handles start alive, suspension points counted
from 0; `cancelAt = none` is a run with no cancel command. -/
def runWorker (steps : Nat) (cancelAt : Option Nat) : List TermMsg :=
  pipelineRun steps true cancelAt 0

lemma pipelineRun_length :
    ∀ (steps : Nat) (alive : Bool) (cancelAt : Option Nat) (i : Nat),
      (pipelineRun steps alive cancelAt i).length = 1 := by
  intro steps
  induction steps with
  | zero =>
    intro alive cancelAt i
    rw [pipelineRun]
    by_cases h : alive = true
    · rw [if_pos h]; rfl
    · rw [if_neg h]; rfl
  | succ r ih =>
    intro alive cancelAt i
    rw [pipelineRun]
    by_cases h : (if cancelAt = some i then false else alive) = true
    · rw [if_pos h]
      exact ih _ _ _
    · rw [if_neg h]
      rfl

lemma pipelineRun_no_cancel :
    ∀ (steps i : Nat), pipelineRun steps true none i = [.done] := by
  intro steps
  induction steps with
  | zero => intro i; rfl
  | succ r ih =>
    intro i
    rw [pipelineRun]
    have hne : ¬ ((none : Option Nat) = some i) := by simp
    rw [if_neg hne, if_pos rfl]
    exact ih (i + 1)

lemma pipelineRun_cancelled :
    ∀ (steps i k : Nat), i ≤ k → k < i + steps →
      pipelineRun steps true (some k) i = [.error] := by
  intro steps
  induction steps with
  | zero => intro i k h1 h2; omega
  | succ r ih =>
    intro i k h1 h2
    rw [pipelineRun]
    by_cases hk : k = i
    · subst hk
      rw [if_pos rfl]
      rfl
    · have hne : ¬ ((some k : Option Nat) = some i) := by
        intro h
        exact hk (Option.some.inj h)
      rw [if_neg hne, if_pos rfl]
      exact ih (i + 1) k (by omega) (by omega)

/-- C10 (amended).  Every run emits exactly one terminal message, whether
or not a cancel command arrives; without a cancel it is `done`, and with
a cancel processed at any suspension point before completion it is
`error` — the cancel does not suppress the terminal message as the claim
requires, it converts the outcome into an error post (the nulled handles
make the next pipeline statement throw into the `catch`). -/
theorem worker_terminal_messages (steps k : Nat) (hk : k < steps) :
    (∀ c : Option Nat, (runWorker steps c).length = 1) ∧
    runWorker steps none = [TermMsg.done] ∧
    runWorker steps (some k) = [TermMsg.error] := by
  refine ⟨fun c => pipelineRun_length steps true c 0,
    pipelineRun_no_cancel steps 0,
    pipelineRun_cancelled steps 0 k (Nat.zero_le k) (by omega)⟩

/-- C10 counterexample.  A 3-step run with a cancel processed at
suspension point 1 (mid-run) still emits a terminal message — the
`error` post — contradicting the claim that a cancelled run emits
neither `done` nor `error`. -/
theorem cancel_still_posts_counterexample :
    runWorker 3 (some 1) = [TermMsg.error] ∧
    runWorker 3 (some 1) ≠ [] := by
  refine ⟨by decide, by decide⟩

/-- C10 witness.  Applies `worker_terminal_messages` to a 3-step run
cancelled at suspension point 1. -/
theorem worker_terminal_messages_witness :
    1 < 3 ∧
    ((∀ c : Option Nat, (runWorker 3 c).length = 1) ∧
     runWorker 3 none = [TermMsg.done] ∧
     runWorker 3 (some 1) = [TermMsg.error]) :=
  ⟨by norm_num, worker_terminal_messages 3 1 (by norm_num)⟩

end Shortme
